import Mathlib

/-!
Verification of the core of a CLI that drives a task-management
application through generated osascript snippets (JXA and AppleScript).

The Go source is shallowly embedded: each operation in
`things_actions.go` becomes a pure Lean function.  The single external
effect — invoking the `osascript` bridge through the `CommandExecutor`
interface — is modelled by passing the bridge's response explicitly as a
value of `ExecResult` (process-level error, or captured stdout).  The
JSON decoding step of the fetch path is abstracted as an explicit
`unmarshal` argument, since no verified property depends on JSON syntax.
Timestamps are modelled as civil date-times expressed in the (single)
local time zone, so Go's `In(time.Local)` conversion is the identity and
`time.Time` comparison is comparison of the civil fields.
-/

set_option linter.unusedVariables false

namespace Things

/-! ## String utilities modelling the Go standard library -/

/-- Is the character whitespace?  (ASCII whitespace; Go's
`unicode.IsSpace` also covers exotic Unicode spaces, which no modelled
value contains.) -/
def isSpaceChar (c : Char) : Bool :=
  c = ' ' || c = '\t' || c = '\n' || c = '\r'

/-- Drop leading whitespace characters. -/
def dropLeadingSpace : List Char → List Char
  | [] => []
  | c :: rest => if isSpaceChar c then dropLeadingSpace rest else c :: rest

/-- Models `strings.TrimSpace`: trim leading and trailing whitespace. -/
def goTrimSpace (s : String) : String :=
  String.mk (List.reverse (dropLeadingSpace (List.reverse (dropLeadingSpace s.data))))

/-- Does the list given as second argument start with the pattern given
as first argument?  (Recursion is on the pattern.) -/
def listStartsWithAux : List Char → List Char → Bool
  | [], _ => true
  | _ :: _, [] => false
  | q :: ps, c :: cs => c = q && listStartsWithAux ps cs

/-- Boolean test that a list starts with the given pattern. -/
def listStartsWith (l p : List Char) : Bool :=
  listStartsWithAux p l

/-- Models `strings.HasPrefix` (and the `strings.HasPrefix`-based
branching in the source). -/
def strStartsWith (s pre : String) : Bool :=
  listStartsWith s.data pre.data

/-- Boolean infix test on lists of characters. -/
def listContainsSub : List Char → List Char → Bool
  | [], sub => sub.isEmpty
  | c :: cs, sub => listStartsWith (c :: cs) sub || listContainsSub cs sub

/-- Models `strings.Contains`. -/
def strContains (s sub : String) : Bool :=
  listContainsSub s.data sub.data

/-- Replace every occurrence of the character `old` by the character
sequence `new`; all other characters are kept.  This is exactly
`strings.ReplaceAll(s, old, new)` for a one-character pattern. -/
def replaceCharList (old : Char) (new : List Char) : List Char → List Char
  | [] => []
  | c :: rest => (if c = old then new else [c]) ++ replaceCharList old new rest

/-- Models `strings.ReplaceAll(s, "'", "\\'")`, the escaping applied to
every value interpolated into a single-quoted JXA string literal. -/
def escapeSingleQuotes (s : String) : String :=
  String.mk (replaceCharList '\'' ['\\', '\''] s.data)

/-- Models `strings.ReplaceAll(s, "\"", "\\\"")`, the escaping applied to
every value interpolated into a double-quoted AppleScript string
literal. -/
def escapeDoubleQuotes (s : String) : String :=
  String.mk (replaceCharList '"' ['\\', '"'] s.data)

/-- Lexical scan of the body of a quoted script literal, following the
escaping rule shared by JXA (JavaScript) and AppleScript string
literals: a backslash escapes the following character.  The result is
`true` exactly when the scan meets an unescaped occurrence of the quote
delimiter `delim`, i.e. when splicing this character sequence between
two `delim` quotes would terminate the literal early. -/
def literalBreaksEarly (delim : Char) : List Char → Bool
  | [] => false
  | c :: rest =>
    if c = '\\' then
      match rest with
      | [] => false
      | _ :: rest2 => literalBreaksEarly delim rest2
    else if c = delim then true
    else literalBreaksEarly delim rest

/-! ## Executor model and result types -/

/-- Result of one invocation of the external `osascript` process through
the `CommandExecutor` interface: either the invocation itself failed
(`procError`, modelling a non-nil Go `error` from `Execute`), or it
succeeded and produced the captured stdout (`output`). -/
inductive ExecResult where
  | procError (msg : String)
  | output (s : String)
deriving DecidableEq

/-- Mirrors the Go struct `OperationResult`. -/
structure OperationResult where
  success : Bool
  message : String
deriving DecidableEq

/-! ## Calendar model

Go's `time` package implements the proleptic Gregorian calendar.  A
`time.Time` in the (single) local zone is modelled by its civil fields.
-/

/-- A civil calendar date. -/
structure Date where
  year : Int
  month : Int
  day : Int
deriving DecidableEq

/-- A civil date-time (in the local time zone). -/
structure DateTime where
  date : Date
  hour : Int
  minute : Int
  second : Int
deriving DecidableEq

/-- Leap-year rule of the Gregorian calendar, as implemented by Go's
`time.isLeap`. -/
def isLeap (y : Int) : Bool :=
  (y % 4 = 0 && !(y % 100 = 0)) || y % 400 = 0

/-- Number of days in a month, as implemented by Go's `time.daysIn`. -/
def daysInMonth (y m : Int) : Int :=
  if m = 2 then (if isLeap y then 29 else 28)
  else if m = 4 ∨ m = 6 ∨ m = 9 ∨ m = 11 then 30
  else 31

/-- A date whose fields actually denote a calendar day. -/
def ValidDate (d : Date) : Prop :=
  1 ≤ d.month ∧ d.month ≤ 12 ∧ 1 ≤ d.day ∧ d.day ≤ daysInMonth d.year d.month

instance (d : Date) : Decidable (ValidDate d) := by
  unfold ValidDate; infer_instance

/-- Day number of a civil date, with day 0 = 1970-01-01 (the count Go's
`time` package internally derives from its absolute time).  Standard
days-from-civil computation on the shifted (March-based) year; note that
`/` on `Int` is floor division for positive divisors. -/
def toRataDie (d : Date) : Int :=
  let y : Int := if d.month ≤ 2 then d.year - 1 else d.year
  let mp : Int := if d.month > 2 then d.month - 3 else d.month + 9
  let doy : Int := (153 * mp + 2) / 5 + d.day - 1
  365 * y + y / 4 - y / 100 + y / 400 + doy - 719468

/-- Models `time.Time.Weekday` (Sunday = 0): day 0 = 1970-01-01 was a
Thursday (= 4). -/
def weekday (d : Date) : Int :=
  (toRataDie d + 4) % 7

/-- The civil date one day earlier. -/
def prevDay (d : Date) : Date :=
  if 1 < d.day then ⟨d.year, d.month, d.day - 1⟩
  else if 1 < d.month then ⟨d.year, d.month - 1, daysInMonth d.year (d.month - 1)⟩
  else ⟨d.year - 1, 12, 31⟩

/-- The civil date `n` days earlier; models `Time.AddDate(0, 0, -n)` for
`n ≥ 0` (Go normalizes the out-of-range day field through the same
civil-calendar arithmetic). -/
def subDays (d : Date) : Nat → Date
  | 0 => d
  | n + 1 => subDays (prevDay d) n

/-- The civil date one day later; models `Time.AddDate(0, 0, 1)`. -/
def nextDay (d : Date) : Date :=
  if d.day < daysInMonth d.year d.month then ⟨d.year, d.month, d.day + 1⟩
  else if d.month < 12 then ⟨d.year, d.month + 1, 1⟩
  else ⟨d.year + 1, 1, 1⟩

/-- Second count of a local civil date-time from the local epoch; since
all modelled date-times live in the one local zone, this is the instant
the `time.Time` denotes, up to the constant zone offset. -/
def dtKey (t : DateTime) : Int :=
  toRataDie t.date * 86400 + t.hour * 3600 + t.minute * 60 + t.second

/-- Models `time.Time.Before` (instant comparison). -/
def dtBefore (a b : DateTime) : Bool :=
  dtKey a < dtKey b

/-- Midnight (00:00:00 local) of a civil date. -/
def midnight (d : Date) : DateTime := ⟨d, 0, 0, 0⟩

/-- Zero-padded two-digit decimal rendering. -/
def pad2 (n : Int) : String :=
  if n < 10 then "0" ++ toString n else toString n

/-- Zero-padded four-digit decimal rendering. -/
def pad4 (n : Int) : String :=
  if n < 10 then "000" ++ toString n
  else if n < 100 then "00" ++ toString n
  else if n < 1000 then "0" ++ toString n
  else toString n

/-- Models `Time.Format(time.RFC3339)` up to the trailing zone-offset
suffix, which the embedding does not model: the rendered string only
parameterizes the generated script text, which no verified property
inspects. -/
def formatRFC3339 (t : DateTime) : String :=
  pad4 t.date.year ++ "-" ++ pad2 t.date.month ++ "-" ++ pad2 t.date.day ++ "T"
    ++ pad2 t.hour ++ ":" ++ pad2 t.minute ++ ":" ++ pad2 t.second

/-! ## The Todo record -/

/-- Mirrors the Go struct `Todo`.  Optional fields (pointer or
`omitempty` fields in Go) are `Option` / possibly-empty values.
Timestamps are stored as the civil local form of the instant, so
`CompletionDate.In(time.Local)` is the identity here. -/
structure Todo where
  name : String
  notes : String := ""
  status : String
  creationDate : Option DateTime := none
  modificationDate : Option DateTime := none
  dueDate : Option DateTime := none
  completionDate : Option DateTime := none
  cancellationDate : Option DateTime := none
  tagNames : List String := []
  area : String := ""
  project : String := ""
deriving DecidableEq

/-! ## The operations of things_actions.go -/

/-- Models `getTodosFromListWithFilter`.  `res` is the bridge's response
to the one `osascript` invocation the function makes; `unmarshal` models
`json.Unmarshal` into `[]Todo` (error value = the decoder's message). -/
def getTodosFromListWithFilter (listName filterDateISO : String)
    (res : ExecResult) (unmarshal : String → Except String (List Todo)) :
    Except String (List Todo) :=
  let escapedListName := escapeSingleQuotes listName
  match res with
  | .procError e => .error ("error running JXA script: " ++ e)
  | .output out =>
    let outputStr := goTrimSpace out
    if strStartsWith outputStr "ERROR:" then
      .error outputStr
    else
      match unmarshal outputStr with
      | .error je => .error ("error parsing JSON: " ++ je)
      | .ok todos => .ok todos

/-- Models `addTodoToList`. -/
def addTodoToList (listName text tags : String) (res : ExecResult) :
    Except String OperationResult :=
  let escapedListName := escapeSingleQuotes listName
  let escapedText := escapeSingleQuotes text
  let escapedTags := escapeSingleQuotes tags
  match res with
  | .procError e => .error ("error running JXA script: " ++ e)
  | .output out =>
    let outputStr := goTrimSpace out
    if strStartsWith outputStr "ERROR:" then
      .ok { success := false, message := outputStr }
    else
      .ok { success := true,
            message := "To-do added successfully to list \"" ++ listName ++ "\"!" }

/-- Models `deleteTodoFromList`. -/
def deleteTodoFromList (listName todoName : String) (res : ExecResult) :
    Except String OperationResult :=
  let escapedListName := escapeSingleQuotes listName
  let escapedTodoName := escapeSingleQuotes todoName
  match res with
  | .procError e => .error ("error running JXA script: " ++ e)
  | .output out =>
    let outputStr := goTrimSpace out
    if strStartsWith outputStr "ERROR:" then
      if strContains outputStr "not found in list" then
        .ok { success := false,
              message := "ERROR: To-do \"" ++ todoName ++ "\" not found in list \""
                ++ listName ++ "\"" }
      else
        .ok { success := false,
              message := "ERROR: List \"" ++ listName ++ "\" not found" }
    else
      .ok { success := true,
            message := "To-do \"" ++ todoName ++ "\" deleted successfully from list \""
              ++ listName ++ "\"!" }

/-- Models `moveTodoBetweenLists` (the one AppleScript operation). -/
def moveTodoBetweenLists (fromList toList todoName : String) (res : ExecResult) :
    Except String OperationResult :=
  let escapedFromList := escapeDoubleQuotes fromList
  let escapedToList := escapeDoubleQuotes toList
  let escapedTodoName := escapeDoubleQuotes todoName
  match res with
  | .procError e => .error ("error running AppleScript: " ++ e)
  | .output out =>
    let outputStr := goTrimSpace out
    if strStartsWith outputStr "ERROR:" then
      if strContains outputStr "not found" then
        .ok { success := false,
              message := "ERROR: To-do \"" ++ todoName ++ "\" not found in list \""
                ++ fromList ++ "\"" }
      else
        .ok { success := false, message := outputStr }
    else
      .ok { success := true,
            message := "To-do \"" ++ todoName ++ "\" moved successfully from list \""
              ++ fromList ++ "\" to list \"" ++ toList ++ "\"!" }

/-- Models `renameTodoInList`. -/
def renameTodoInList (listName oldName newName : String) (res : ExecResult) :
    Except String OperationResult :=
  let escapedListName := escapeSingleQuotes listName
  let escapedOldName := escapeSingleQuotes oldName
  let escapedNewName := escapeSingleQuotes newName
  match res with
  | .procError e => .error ("error running JXA script: " ++ e)
  | .output out =>
    let outputStr := goTrimSpace out
    if strStartsWith outputStr "ERROR:" then
      if strContains outputStr "not found in list" then
        .ok { success := false,
              message := "ERROR: To-do \"" ++ oldName ++ "\" not found in list \""
                ++ listName ++ "\"" }
      else
        .ok { success := false,
              message := "ERROR: List \"" ++ listName ++ "\" not found" }
    else
      .ok { success := true,
            message := "To-do \"" ++ oldName ++ "\" renamed to \"" ++ newName
              ++ "\" in list \"" ++ listName ++ "\"!" }

/-- Models `logCompletedNow`. -/
def logCompletedNow (res : ExecResult) : Except String Unit :=
  match res with
  | .procError e => .error ("error running JXA script: " ++ e)
  | .output out =>
    let outputStr := goTrimSpace out
    if strStartsWith outputStr "ERROR:" then
      .error outputStr
    else
      .ok ()

/-! ## Date filters -/

/-- Is a character an ASCII decimal digit? -/
def isDigitChar (c : Char) : Bool := '0' ≤ c && c ≤ '9'

/-- Numeric value of an ASCII digit. -/
def digitVal (c : Char) : Int := Int.ofNat c.toNat - 48

/-- The date whose decimal digits are the given year, month and day
characters. -/
def ymdDate (y1 y2 y3 y4 m1 m2 d1 d2 : Char) : Date :=
  ⟨1000 * digitVal y1 + 100 * digitVal y2 + 10 * digitVal y3 + digitVal y4,
   10 * digitVal m1 + digitVal m2,
   10 * digitVal d1 + digitVal d2⟩

/-- Models `time.Parse("2006-01-02", s)`: exactly four digits, a dash,
two digits, a dash, two digits, nothing more; the month must lie in
1..12 and the day in 1..daysIn(month, year) — Go reports a range error
otherwise, which is exactly the `ValidDate` check.  `none` stands for
any non-nil parse error. -/
def parseYMD (s : String) : Option Date :=
  match s.data with
  | [y1, y2, y3, y4, h1, m1, m2, h2, d1, d2] =>
    if isDigitChar y1 && isDigitChar y2 && isDigitChar y3 && isDigitChar y4
        && h1 = '-' && isDigitChar m1 && isDigitChar m2
        && h2 = '-' && isDigitChar d1 && isDigitChar d2 then
      if ValidDate (ymdDate y1 y2 y3 y4 m1 m2 d1 d2) then
        some (ymdDate y1 y2 y3 y4 m1 m2 d1 d2)
      else none
    else none
  | _ => none

/-- Models `calculateStartDate`.  `time.Now()` is passed explicitly as
`now` (its civil local fields); `now.Weekday()` is `weekday now.date`.
The default branch returns Go's zero `time.Time`, whose civil fields are
January 1 of year 1, 00:00:00. -/
def calculateStartDate (now : DateTime) (filter : String) : DateTime :=
  if filter = "today" then
    midnight now.date
  else if filter = "this week" then
    let daysBack := weekday now.date
    let sunday := subDays now.date daysBack.toNat
    midnight sunday
  else if filter = "this month" then
    midnight ⟨now.date.year, now.date.month, 1⟩
  else
    midnight ⟨1, 1, 1⟩

/-- Models `parseDateFilter`. -/
def parseDateFilter (now : DateTime) (filter : String) :
    Except String (DateTime × Bool) :=
  if filter = "today" ∨ filter = "this week" ∨ filter = "this month" then
    .ok (calculateStartDate now filter, false)
  else
    match parseYMD filter with
    | none => .error ("invalid date format: " ++ filter)
    | some d => .ok (midnight d, true)

/-- The in-process post-filter loop of `getCompletedTodos` for an
explicit single day: keep the todos whose completion instant lies in
the half-open window `[startDate, endOfDay)`; todos with no completion
date are skipped. -/
def singleDayFilter (startDate endOfDay : DateTime) : List Todo → List Todo
  | [] => []
  | todo :: rest =>
    match todo.completionDate with
    | some c =>
      if !dtBefore c startDate && dtBefore c endOfDay then
        todo :: singleDayFilter startDate endOfDay rest
      else
        singleDayFilter startDate endOfDay rest
    | none => singleDayFilter startDate endOfDay rest

/-- Models `getCompletedTodos`.  The function spawns up to two
`osascript` processes, in order: the `logCompletedNow` housekeeping call
(response `logRes`) and then the Logbook fetch (response `fetchRes`);
the second response is consulted only if the first call and the filter
parse succeed. -/
def getCompletedTodos (now : DateTime) (logRes fetchRes : ExecResult)
    (unmarshal : String → Except String (List Todo)) (dateFilter : String) :
    Except String (List Todo) :=
  match logCompletedNow logRes with
  | .error e => .error e
  | .ok _ =>
    match parseDateFilter now dateFilter with
    | .error e => .error e
    | .ok (startDate, isSingleDay) =>
      let startDateISO := formatRFC3339 startDate
      match getTodosFromListWithFilter "Logbook" startDateISO fetchRes unmarshal with
      | .error e => .error e
      | .ok todos =>
        if isSingleDay then
          let endOfDay : DateTime := ⟨nextDay startDate.date, startDate.hour,
            startDate.minute, startDate.second⟩
          .ok (singleDayFilter startDate endOfDay todos)
        else
          .ok todos

/-- The area/project filter loop of `getCompletedTodosFiltered`. -/
def areaProjectFilter (areaFilter projectFilter : String) : List Todo → List Todo
  | [] => []
  | todo :: rest =>
    if areaFilter ≠ "" ∧ todo.area ≠ areaFilter then
      areaProjectFilter areaFilter projectFilter rest
    else if projectFilter ≠ "" ∧ todo.project ≠ projectFilter then
      areaProjectFilter areaFilter projectFilter rest
    else
      todo :: areaProjectFilter areaFilter projectFilter rest

/-- The predicate the spec ascribes to the single-day post-filter: the
todo has a completion instant and it lies in the half-open window
between the two given date-times. -/
def keepsInWindow (startDate endOfDay : DateTime) (t : Todo) : Bool :=
  match t.completionDate with
  | some c => !dtBefore c startDate && dtBefore c endOfDay
  | none => false

/-- The predicate the spec ascribes to the area/project filter: each
nonempty filter string must equal the corresponding field exactly, and
an empty filter string imposes no constraint. -/
def matchesAreaProject (areaFilter projectFilter : String) (t : Todo) : Bool :=
  (areaFilter = "" || t.area = areaFilter)
    && (projectFilter = "" || t.project = projectFilter)

/-- Models `getCompletedTodosFiltered`. -/
def getCompletedTodosFiltered (now : DateTime) (logRes fetchRes : ExecResult)
    (unmarshal : String → Except String (List Todo))
    (dateFilter areaFilter projectFilter : String) :
    Except String (List Todo) :=
  match getCompletedTodos now logRes fetchRes unmarshal dateFilter with
  | .error e => .error e
  | .ok todos =>
    if areaFilter = "" ∧ projectFilter = "" then
      .ok todos
    else
      .ok (areaProjectFilter areaFilter projectFilter todos)

/-! ## Concrete sample data used in witnesses -/

/-- A sample civil instant used as `time.Now()` in concrete runs. -/
def nowSample : DateTime := ⟨⟨2026, 10, 11⟩, 9, 30, 0⟩

/-- Sample todo completed exactly at local midnight of 2024-01-15. -/
def todoOnTheDay : Todo :=
  { name := "on the day", status := "completed",
    completionDate := some ⟨⟨2024, 1, 15⟩, 0, 0, 0⟩ }

/-- Sample todo completed one second after the next local midnight. -/
def todoPastTheDay : Todo :=
  { name := "past the day", status := "completed",
    completionDate := some ⟨⟨2024, 1, 16⟩, 0, 0, 1⟩ }

/-- Sample todo with no completion date in the fetched payload. -/
def todoNoDate : Todo := { name := "undated", status := "completed" }

/-- Sample todo in area "Work". -/
def todoWork1 : Todo := { name := "w1", status := "completed", area := "Work" }

/-- Second sample todo in area "Work". -/
def todoWork2 : Todo := { name := "w2", status := "completed", area := "Work" }

/-- Sample todo in area "Personal". -/
def todoPersonal : Todo :=
  { name := "p1", status := "completed", area := "Personal" }

/-! ## Lemmas about the literal scanner -/

/-- A backslash escapes the next character: the scan skips both. -/
theorem literalBreaksEarly_cons_slash (delim x : Char) (l : List Char) :
    literalBreaksEarly delim ('\\' :: x :: l) = literalBreaksEarly delim l := rfl

/-- A character that is neither a backslash nor the delimiter is skipped
by the scan. -/
theorem literalBreaksEarly_cons_other (delim c : Char) (l : List Char)
    (hc : c ≠ '\\') (hcd : c ≠ delim) :
    literalBreaksEarly delim (c :: l) = literalBreaksEarly delim l := by
  unfold literalBreaksEarly
  rw [if_neg hc, if_neg hcd]
  exact literalBreaksEarly.eq_def delim l

/-- On a backslash-free character sequence, replacing each delimiter by
backslash-delimiter yields a sequence the scanner accepts in full. -/
theorem literalBreaksEarly_replace (delim : Char) (hdelim : delim ≠ '\\')
    (l : List Char) (h : '\\' ∉ l) :
    literalBreaksEarly delim (replaceCharList delim ['\\', delim] l) = false := by
  induction l with
  | nil => rfl
  | cons c rest ih =>
    have hc : c ≠ '\\' := fun hh => h (hh ▸ List.mem_cons_self c rest)
    have hr : '\\' ∉ rest := fun hh => h (List.mem_cons_of_mem _ hh)
    by_cases hcd : c = delim
    · subst hcd
      simp only [replaceCharList, if_pos rfl, List.cons_append, List.nil_append,
        literalBreaksEarly_cons_slash]
      exact ih hr
    · simp only [replaceCharList, if_neg hcd, List.cons_append, List.nil_append,
        literalBreaksEarly_cons_other delim c _ hc hcd]
      exact ih hr

/-- C1, counterexample.  The claim states that for every input string
containing the destination dialect's quote delimiter, the escaped form
contains no unescaped delimiter and hence never terminates the script
literal early.  This fails for the two-character input backslash-quote:
`escapeSingleQuotes` maps it to backslash-backslash-quote, where the
first backslash escapes the second, leaving the quote unescaped, so the
single-quoted JXA literal terminates early; the double-quote/AppleScript
escaping fails on backslash-doublequote the same way. -/
theorem C1_counterexample :
    ('\'' ∈ (String.mk ['\\', '\'']).data ∧
      literalBreaksEarly '\'' (escapeSingleQuotes (String.mk ['\\', '\''])).data = true) ∧
    ('"' ∈ (String.mk ['\\', '"']).data ∧
      literalBreaksEarly '"' (escapeDoubleQuotes (String.mk ['\\', '"'])).data = true) := by
  decide

/-- C1, amended.  For every input string that contains the destination
dialect's quote delimiter but no backslash, the escaped form inserted
into the script literal contains no unescaped occurrence of that
delimiter (single quote for the JXA operations, double quote for the
AppleScript operation), so it never terminates the script's string
literal early. -/
theorem C1_escaped_delimiter_never_breaks_literal :
    (∀ s : String, '\'' ∈ s.data → '\\' ∉ s.data →
      literalBreaksEarly '\'' (escapeSingleQuotes s).data = false) ∧
    (∀ s : String, '"' ∈ s.data → '\\' ∉ s.data →
      literalBreaksEarly '"' (escapeDoubleQuotes s).data = false) := by
  constructor
  · intro s _ hnb
    exact literalBreaksEarly_replace '\'' (by decide) s.data hnb
  · intro s _ hnb
    exact literalBreaksEarly_replace '"' (by decide) s.data hnb

/-- C1, witness: the amended theorem applied to concrete quote-bearing,
backslash-free inputs. -/
theorem C1_escaped_delimiter_never_breaks_literal_witness :
    ('\'' ∈ (String.mk ['a', '\'', 'b']).data ∧ '\\' ∉ (String.mk ['a', '\'', 'b']).data ∧
      literalBreaksEarly '\'' (escapeSingleQuotes (String.mk ['a', '\'', 'b'])).data = false) ∧
    ('"' ∈ (String.mk ['a', '"', 'b']).data ∧ '\\' ∉ (String.mk ['a', '"', 'b']).data ∧
      literalBreaksEarly '"' (escapeDoubleQuotes (String.mk ['a', '"', 'b'])).data = false) :=
  ⟨⟨by decide, by decide,
      C1_escaped_delimiter_never_breaks_literal.1 _ (by decide) (by decide)⟩,
    ⟨by decide, by decide,
      C1_escaped_delimiter_never_breaks_literal.2 _ (by decide) (by decide)⟩⟩

/-- C2.  For every operation and every executor behaviour: a
process-level error is returned as a hard error (never as an
`OperationResult`); a captured output whose trimmed form begins with
"ERROR:" makes each mutating operation return a failure
`OperationResult` with a nil error, and makes the fetch return a typed
error carrying the full trimmed message. -/
theorem C2_process_errors_vs_script_errors :
    (∀ listName text tags e, addTodoToList listName text tags (.procError e)
        = .error ("error running JXA script: " ++ e)) ∧
    (∀ listName todoName e, deleteTodoFromList listName todoName (.procError e)
        = .error ("error running JXA script: " ++ e)) ∧
    (∀ listName oldName newName e, renameTodoInList listName oldName newName (.procError e)
        = .error ("error running JXA script: " ++ e)) ∧
    (∀ fromList toList todoName e, moveTodoBetweenLists fromList toList todoName (.procError e)
        = .error ("error running AppleScript: " ++ e)) ∧
    (∀ listName filterDateISO unmarshal e,
      getTodosFromListWithFilter listName filterDateISO (.procError e) unmarshal
        = .error ("error running JXA script: " ++ e)) ∧
    (∀ listName text tags out, strStartsWith (goTrimSpace out) "ERROR:" = true →
      addTodoToList listName text tags (.output out)
        = .ok { success := false, message := goTrimSpace out }) ∧
    (∀ listName todoName out, strStartsWith (goTrimSpace out) "ERROR:" = true →
      ∃ r, deleteTodoFromList listName todoName (.output out) = .ok r ∧ r.success = false) ∧
    (∀ listName oldName newName out, strStartsWith (goTrimSpace out) "ERROR:" = true →
      ∃ r, renameTodoInList listName oldName newName (.output out) = .ok r
        ∧ r.success = false) ∧
    (∀ fromList toList todoName out, strStartsWith (goTrimSpace out) "ERROR:" = true →
      ∃ r, moveTodoBetweenLists fromList toList todoName (.output out) = .ok r
        ∧ r.success = false) ∧
    (∀ listName filterDateISO unmarshal out, strStartsWith (goTrimSpace out) "ERROR:" = true →
      getTodosFromListWithFilter listName filterDateISO (.output out) unmarshal
        = .error (goTrimSpace out)) := by
  refine ⟨fun _ _ _ _ => rfl, fun _ _ _ => rfl, fun _ _ _ _ => rfl, fun _ _ _ _ => rfl,
    fun _ _ _ _ => rfl, ?_, ?_, ?_, ?_, ?_⟩
  · intro listName text tags out h
    simp [addTodoToList, h]
  · intro listName todoName out h
    by_cases hc : strContains (goTrimSpace out) "not found in list" = true
    · exact ⟨{ success := false,
               message := "ERROR: To-do \"" ++ todoName ++ "\" not found in list \""
                 ++ listName ++ "\"" }, by simp [deleteTodoFromList, h, hc], rfl⟩
    · exact ⟨{ success := false,
               message := "ERROR: List \"" ++ listName ++ "\" not found" },
        by simp [deleteTodoFromList, h, hc], rfl⟩
  · intro listName oldName newName out h
    by_cases hc : strContains (goTrimSpace out) "not found in list" = true
    · exact ⟨{ success := false,
               message := "ERROR: To-do \"" ++ oldName ++ "\" not found in list \""
                 ++ listName ++ "\"" }, by simp [renameTodoInList, h, hc], rfl⟩
    · exact ⟨{ success := false,
               message := "ERROR: List \"" ++ listName ++ "\" not found" },
        by simp [renameTodoInList, h, hc], rfl⟩
  · intro fromList toList todoName out h
    by_cases hc : strContains (goTrimSpace out) "not found" = true
    · exact ⟨{ success := false,
               message := "ERROR: To-do \"" ++ todoName ++ "\" not found in list \""
                 ++ fromList ++ "\"" }, by simp [moveTodoBetweenLists, h, hc], rfl⟩
    · exact ⟨{ success := false, message := goTrimSpace out },
        by simp [moveTodoBetweenLists, h, hc], rfl⟩
  · intro listName filterDateISO unmarshal out h
    simp [getTodosFromListWithFilter, h]

/-- C2, witness: the theorem applied to concrete executor behaviours. -/
theorem C2_process_errors_vs_script_errors_witness :
    addTodoToList "Work" "Task" "" (.procError "command failed")
        = .error ("error running JXA script: " ++ "command failed") ∧
    (strStartsWith (goTrimSpace " ERROR: e.message ") "ERROR:" = true ∧
      addTodoToList "Work" "Task" "" (.output " ERROR: e.message ")
        = .ok { success := false, message := goTrimSpace " ERROR: e.message " }) ∧
    (strStartsWith (goTrimSpace "ERROR: List not found") "ERROR:" = true ∧
      ∃ r, deleteTodoFromList "Work" "Task" (.output "ERROR: List not found") = .ok r
        ∧ r.success = false) ∧
    (strStartsWith (goTrimSpace "ERROR: x") "ERROR:" = true ∧
      getTodosFromListWithFilter "Work" "" (.output "ERROR: x") (fun _ => .ok [])
        = .error (goTrimSpace "ERROR: x")) :=
  ⟨C2_process_errors_vs_script_errors.1 "Work" "Task" "" "command failed",
    ⟨by decide,
      (C2_process_errors_vs_script_errors.2.2.2.2.2.1) "Work" "Task" "" _ (by decide)⟩,
    ⟨by decide,
      (C2_process_errors_vs_script_errors.2.2.2.2.2.2.1) "Work" "Task" _ (by decide)⟩,
    ⟨by decide,
      (C2_process_errors_vs_script_errors.2.2.2.2.2.2.2.2.2) "Work" "" _ _ (by decide)⟩⟩

/-- C8.  Whenever the external process succeeds and the trimmed bridge
output does not begin with "ERROR:", `moveTodoBetweenLists` reports
success with the exact rendered message, independent of the bridge's
internal success token wording. -/
theorem C8_move_success_message (fromList toList todoName out : String)
    (h : strStartsWith (goTrimSpace out) "ERROR:" = false) :
    moveTodoBetweenLists fromList toList todoName (.output out)
      = .ok { success := true,
              message := "To-do \"" ++ todoName ++ "\" moved successfully from list \""
                ++ fromList ++ "\" to list \"" ++ toList ++ "\"!" } := by
  simp [moveTodoBetweenLists, h]

/-- C8, witness: moving "T" from "A" to "B" with an arbitrary success
token from the bridge. -/
theorem C8_move_success_message_witness :
    strStartsWith (goTrimSpace "SUCCESS") "ERROR:" = false ∧
    moveTodoBetweenLists "A" "B" "T" (.output "SUCCESS")
      = .ok { success := true,
              message := "To-do \"" ++ "T" ++ "\" moved successfully from list \""
                ++ "A" ++ "\" to list \"" ++ "B" ++ "\"!" } :=
  ⟨by decide, C8_move_success_message "A" "B" "T" "SUCCESS" (by decide)⟩

/-- C5.  For delete and rename, when the trimmed bridge output begins
with "ERROR:": if it contains "not found in list" the failure message is
exactly the to-do-not-found template rendered from the caller's own
parameters, otherwise it is exactly the list-not-found template; in
particular the concrete X/Y deletion scenario yields success `false`
with exactly that message. -/
theorem C5_delete_rename_error_disambiguation :
    (∀ listName todoName out, strStartsWith (goTrimSpace out) "ERROR:" = true →
      (strContains (goTrimSpace out) "not found in list" = true →
        deleteTodoFromList listName todoName (.output out)
          = .ok { success := false,
                  message := "ERROR: To-do \"" ++ todoName ++ "\" not found in list \""
                    ++ listName ++ "\"" }) ∧
      (strContains (goTrimSpace out) "not found in list" = false →
        deleteTodoFromList listName todoName (.output out)
          = .ok { success := false,
                  message := "ERROR: List \"" ++ listName ++ "\" not found" })) ∧
    (∀ listName oldName newName out, strStartsWith (goTrimSpace out) "ERROR:" = true →
      (strContains (goTrimSpace out) "not found in list" = true →
        renameTodoInList listName oldName newName (.output out)
          = .ok { success := false,
                  message := "ERROR: To-do \"" ++ oldName ++ "\" not found in list \""
                    ++ listName ++ "\"" }) ∧
      (strContains (goTrimSpace out) "not found in list" = false →
        renameTodoInList listName oldName newName (.output out)
          = .ok { success := false,
                  message := "ERROR: List \"" ++ listName ++ "\" not found" })) ∧
    deleteTodoFromList "Y" "X" (.output "ERROR: To-do \"X\" not found in list \"Y\"")
      = .ok { success := false,
              message := "ERROR: To-do \"X\" not found in list \"Y\"" } := by
  refine ⟨?_, ?_, rfl⟩
  · intro listName todoName out h
    exact ⟨fun hc => by simp [deleteTodoFromList, h, hc],
      fun hc => by simp [deleteTodoFromList, h, hc]⟩
  · intro listName oldName newName out h
    exact ⟨fun hc => by simp [renameTodoInList, h, hc],
      fun hc => by simp [renameTodoInList, h, hc]⟩

/-- C5, witness: the disambiguation applied to concrete bridge
outputs. -/
theorem C5_delete_rename_error_disambiguation_witness :
    (strStartsWith (goTrimSpace "ERROR: To-do not found in list") "ERROR:" = true ∧
      deleteTodoFromList "Y" "X" (.output "ERROR: To-do not found in list")
        = .ok { success := false,
                message := "ERROR: To-do \"" ++ "X" ++ "\" not found in list \""
                  ++ "Y" ++ "\"" }) ∧
    (strStartsWith (goTrimSpace "ERROR: List not found") "ERROR:" = true ∧
      renameTodoInList "Y" "X" "Z" (.output "ERROR: List not found")
        = .ok { success := false,
                message := "ERROR: List \"" ++ "Y" ++ "\" not found" }) :=
  ⟨⟨by decide,
      ((C5_delete_rename_error_disambiguation.1) "Y" "X" _ (by decide)).1 (by decide)⟩,
    ⟨by decide,
      ((C5_delete_rename_error_disambiguation.2.1) "Y" "X" "Z" _ (by decide)).2 (by decide)⟩⟩

/-! ## Lemmas about nonempty strings and the error marker -/

/-- A string whose character list is nonempty is not the empty string. -/
theorem str_ne_empty_of_data (s : String) (h : s.data ≠ []) : s ≠ "" := by
  intro hc; rw [hc] at h; exact h rfl

/-- The character list of an append is nonempty when the left part's
is. -/
theorem strApp_data_ne_nil_left (s t : String) (h : s.data ≠ []) :
    (s ++ t).data ≠ [] := by
  show s.data ++ t.data ≠ []
  intro hc
  exact h (List.append_eq_nil.mp hc).1

/-- Starting with a pattern is preserved by appending on the right. -/
theorem listStartsWith_append (p : List Char) : ∀ l1 l2, listStartsWith l1 p = true →
    listStartsWith (l1 ++ l2) p = true := by
  unfold listStartsWith
  induction p with
  | nil => intro l1 l2 _; rfl
  | cons q ps ih =>
    intro l1 l2 h
    cases l1 with
    | nil => exact Bool.noConfusion h
    | cons c cs =>
      simp only [listStartsWithAux, List.cons_append, Bool.and_eq_true] at h ⊢
      exact ⟨h.1, ih cs l2 h.2⟩

/-- Having a given leading pattern is preserved by appending on the
right. -/
theorem strStartsWith_append_left (s t pre : String)
    (h : strStartsWith s pre = true) : strStartsWith (s ++ t) pre = true := by
  show listStartsWith (s.data ++ t.data) pre.data = true
  exact listStartsWith_append pre.data s.data t.data h

/-- A string that starts with the error marker is nonempty. -/
theorem str_ne_empty_of_error_marker (s : String)
    (h : strStartsWith s "ERROR:" = true) : s ≠ "" := by
  intro hc; subst hc
  exact absurd h (by decide)

/-- C9.  Every `OperationResult` returned with a nil error by the four
mutating operations has a nonempty message, and whenever its success
flag is false the message begins with "ERROR:". -/
theorem C9_result_message_invariant :
    (∀ listName text tags r res, addTodoToList listName text tags r = .ok res →
      res.message ≠ "" ∧ (res.success = false →
        strStartsWith res.message "ERROR:" = true)) ∧
    (∀ listName todoName r res, deleteTodoFromList listName todoName r = .ok res →
      res.message ≠ "" ∧ (res.success = false →
        strStartsWith res.message "ERROR:" = true)) ∧
    (∀ fromList toList todoName r res,
      moveTodoBetweenLists fromList toList todoName r = .ok res →
      res.message ≠ "" ∧ (res.success = false →
        strStartsWith res.message "ERROR:" = true)) ∧
    (∀ listName oldName newName r res,
      renameTodoInList listName oldName newName r = .ok res →
      res.message ≠ "" ∧ (res.success = false →
        strStartsWith res.message "ERROR:" = true)) := by
  refine ⟨?_, ?_, ?_, ?_⟩
  · intro listName text tags r res h
    cases r with
    | procError e => exact absurd h (by simp [addTodoToList])
    | output out =>
      simp only [addTodoToList] at h
      by_cases hp : strStartsWith (goTrimSpace out) "ERROR:" = true
      · rw [if_pos hp] at h
        injection h with h'
        subst h'
        exact ⟨str_ne_empty_of_error_marker _ hp, fun _ => hp⟩
      · rw [if_neg hp] at h
        injection h with h'
        subst h'
        refine ⟨?_, fun hf => Bool.noConfusion hf⟩
        apply str_ne_empty_of_data
        repeat apply strApp_data_ne_nil_left
        decide
  · intro listName todoName r res h
    cases r with
    | procError e => exact absurd h (by simp [deleteTodoFromList])
    | output out =>
      simp only [deleteTodoFromList] at h
      by_cases hp : strStartsWith (goTrimSpace out) "ERROR:" = true
      · rw [if_pos hp] at h
        by_cases hc : strContains (goTrimSpace out) "not found in list" = true
        · rw [if_pos hc] at h
          injection h with h'
          subst h'
          refine ⟨?_, fun _ => ?_⟩
          · apply str_ne_empty_of_data
            repeat apply strApp_data_ne_nil_left
            decide
          · repeat apply strStartsWith_append_left
            decide
        · rw [if_neg hc] at h
          injection h with h'
          subst h'
          refine ⟨?_, fun _ => ?_⟩
          · apply str_ne_empty_of_data
            repeat apply strApp_data_ne_nil_left
            decide
          · repeat apply strStartsWith_append_left
            decide
      · rw [if_neg hp] at h
        injection h with h'
        subst h'
        refine ⟨?_, fun hf => Bool.noConfusion hf⟩
        apply str_ne_empty_of_data
        repeat apply strApp_data_ne_nil_left
        decide
  · intro fromList toList todoName r res h
    cases r with
    | procError e => exact absurd h (by simp [moveTodoBetweenLists])
    | output out =>
      simp only [moveTodoBetweenLists] at h
      by_cases hp : strStartsWith (goTrimSpace out) "ERROR:" = true
      · rw [if_pos hp] at h
        by_cases hc : strContains (goTrimSpace out) "not found" = true
        · rw [if_pos hc] at h
          injection h with h'
          subst h'
          refine ⟨?_, fun _ => ?_⟩
          · apply str_ne_empty_of_data
            repeat apply strApp_data_ne_nil_left
            decide
          · repeat apply strStartsWith_append_left
            decide
        · rw [if_neg hc] at h
          injection h with h'
          subst h'
          exact ⟨str_ne_empty_of_error_marker _ hp, fun _ => hp⟩
      · rw [if_neg hp] at h
        injection h with h'
        subst h'
        refine ⟨?_, fun hf => Bool.noConfusion hf⟩
        apply str_ne_empty_of_data
        repeat apply strApp_data_ne_nil_left
        decide
  · intro listName oldName newName r res h
    cases r with
    | procError e => exact absurd h (by simp [renameTodoInList])
    | output out =>
      simp only [renameTodoInList] at h
      by_cases hp : strStartsWith (goTrimSpace out) "ERROR:" = true
      · rw [if_pos hp] at h
        by_cases hc : strContains (goTrimSpace out) "not found in list" = true
        · rw [if_pos hc] at h
          injection h with h'
          subst h'
          refine ⟨?_, fun _ => ?_⟩
          · apply str_ne_empty_of_data
            repeat apply strApp_data_ne_nil_left
            decide
          · repeat apply strStartsWith_append_left
            decide
        · rw [if_neg hc] at h
          injection h with h'
          subst h'
          refine ⟨?_, fun _ => ?_⟩
          · apply str_ne_empty_of_data
            repeat apply strApp_data_ne_nil_left
            decide
          · repeat apply strStartsWith_append_left
            decide
      · rw [if_neg hp] at h
        injection h with h'
        subst h'
        refine ⟨?_, fun hf => Bool.noConfusion hf⟩
        apply str_ne_empty_of_data
        repeat apply strApp_data_ne_nil_left
        decide

/-- C9, witness: the invariant applied to a concrete failure result of
`addTodoToList` and a concrete success result of `deleteTodoFromList`. -/
theorem C9_result_message_invariant_witness :
    (addTodoToList "Work" "Task" "" (.output "ERROR: boom")
        = .ok { success := false, message := "ERROR: boom" } ∧
      ({ success := false, message := "ERROR: boom" } : OperationResult).message ≠ "" ∧
      (({ success := false, message := "ERROR: boom" } : OperationResult).success = false →
        strStartsWith ({ success := false, message := "ERROR: boom" }
          : OperationResult).message "ERROR:" = true)) ∧
    (deleteTodoFromList "Work" "Task" (.output "SUCCESS")
        = .ok { success := true,
                message := "To-do \"Task\" deleted successfully from list \"Work\"!" } ∧
      ({ success := true,
         message := "To-do \"Task\" deleted successfully from list \"Work\"!" }
          : OperationResult).message ≠ "") :=
  ⟨⟨rfl, C9_result_message_invariant.1 "Work" "Task" "" (.output "ERROR: boom") _ rfl⟩,
    ⟨rfl, (C9_result_message_invariant.2.1 "Work" "Task" (.output "SUCCESS") _ rfl).1⟩⟩

/-! ## Calendar lemmas -/

/-- Anchor: day 0 of the day count is 1970-01-01. -/
theorem toRataDie_epoch : toRataDie ⟨1970, 1, 1⟩ = 0 := by decide

/-- Anchor: 2024-01-15 was a Monday (Go weekday 1). -/
theorem weekday_2024_01_15 : weekday ⟨2024, 1, 15⟩ = 1 := by decide

/-- Stepping back one civil day decreases the day number by one. -/
theorem toRataDie_prevDay (d : Date) (hv : ValidDate d) :
    toRataDie (prevDay d) = toRataDie d - 1 := by
  obtain ⟨hm1, hm2, hd1, hd4⟩ := hv
  obtain ⟨y, m, day⟩ := d
  simp only at hm1 hm2 hd1 hd4 ⊢
  unfold daysInMonth isLeap at hd4
  by_cases hd : 1 < day
  · unfold prevDay toRataDie
    simp only [if_pos hd]
    by_cases hm : m ≤ 2
    · simp only [if_pos hm, if_neg (by omega : ¬ m > 2)]
      omega
    · simp only [if_neg hm, if_pos (by omega : m > 2)]
      omega
  · have hday : day = 1 := by omega
    subst hday
    unfold prevDay toRataDie daysInMonth isLeap
    simp only [if_neg (by omega : ¬ (1:Int) < 1)]
    interval_cases m <;> simp_all <;> omega

/-- Stepping back one civil day preserves validity. -/
theorem ValidDate_prevDay (d : Date) (hv : ValidDate d) :
    ValidDate (prevDay d) := by
  obtain ⟨hm1, hm2, hd1, hd4⟩ := hv
  obtain ⟨y, m, day⟩ := d
  simp only at hm1 hm2 hd1 hd4
  unfold daysInMonth isLeap at hd4
  unfold prevDay ValidDate daysInMonth isLeap
  by_cases hd : 1 < day
  · simp only [if_pos hd]
    split_ifs at hd4 ⊢ <;> omega
  · have hday : day = 1 := by omega
    subst hday
    simp only [if_neg (by omega : ¬ (1:Int) < 1)]
    interval_cases m <;> (try simp_all) <;> (try split_ifs) <;> omega

/-- Stepping back `n` civil days preserves validity and decreases the
day number by `n`. -/
theorem subDays_spec (n : Nat) : ∀ d, ValidDate d →
    ValidDate (subDays d n) ∧ toRataDie (subDays d n) = toRataDie d - n := by
  induction n with
  | zero => intro d hv; exact ⟨hv, by simp [subDays]⟩
  | succ k ih =>
    intro d hv
    have hrec := ih (prevDay d) (ValidDate_prevDay d hv)
    unfold subDays
    refine ⟨hrec.1, ?_⟩
    rw [hrec.2, toRataDie_prevDay d hv]
    push_cast
    ring

/-- Going back `weekday d` days from a valid date lands on a Sunday,
exactly `weekday d` days earlier. -/
theorem sunday_of_subDays_weekday (d : Date) (hv : ValidDate d) :
    weekday (subDays d (weekday d).toNat) = 0 ∧
    toRataDie (subDays d (weekday d).toNat) = toRataDie d - weekday d := by
  have hs := subDays_spec (weekday d).toNat d hv
  have hcast : ((weekday d).toNat : Int) = weekday d := by
    unfold weekday; omega
  have h2 : toRataDie (subDays d (weekday d).toNat) = toRataDie d - weekday d := by
    rw [hs.2, hcast]
  refine ⟨?_, h2⟩
  unfold weekday at h2 ⊢
  omega

/-- C3.  `parseDateFilter` resolves "today" to local midnight of the
current day with the single-day flag false; "this week" to the most
recent Sunday at local midnight (that same day when today is Sunday);
"this month" to the first of the current month at local midnight; a
parseable YYYY-MM-DD token to that day's local midnight with the flag
true; and every other token to a format error.  `now` is the civil
local form of `time.Now()`. -/
theorem C3_parseDateFilter_resolution (now : DateTime) (hv : ValidDate now.date) :
    parseDateFilter now "today" = .ok (midnight now.date, false) ∧
    parseDateFilter now "this month"
      = .ok (midnight ⟨now.date.year, now.date.month, 1⟩, false) ∧
    (∃ sunday : Date,
      parseDateFilter now "this week" = .ok (midnight sunday, false) ∧
      weekday sunday = 0 ∧
      toRataDie sunday = toRataDie now.date - weekday now.date ∧
      (∀ d2 : Date, weekday d2 = 0 → toRataDie d2 ≤ toRataDie now.date →
        toRataDie d2 ≤ toRataDie sunday) ∧
      (weekday now.date = 0 → sunday = now.date)) ∧
    (∀ s d, parseYMD s = some d → parseDateFilter now s = .ok (midnight d, true)) ∧
    (∀ s, s ≠ "today" → s ≠ "this week" → s ≠ "this month" → parseYMD s = none →
      parseDateFilter now s = .error ("invalid date format: " ++ s)) ∧
    parseYMD "2024-01-15" = some ⟨2024, 1, 15⟩ ∧
    parseYMD "not-a-keyword-or-date" = none ∧
    parseYMD "2024-02-30" = none := by
  refine ⟨rfl, rfl, ?_, ?_, ?_, by decide, by decide, by decide⟩
  · refine ⟨subDays now.date (weekday now.date).toNat, rfl, ?_⟩
    have hp := sunday_of_subDays_weekday now.date hv
    refine ⟨hp.1, hp.2, ?_, ?_⟩
    · intro d2 hw0 hle
      have h2 := hp.2
      unfold weekday at hw0 h2 ⊢
      omega
    · intro h0
      rw [h0]
      rfl
  · intro s d h
    by_cases hk : s = "today" ∨ s = "this week" ∨ s = "this month"
    · exfalso
      rcases hk with rfl | rfl | rfl <;> exact Option.noConfusion h
    · unfold parseDateFilter
      rw [if_neg hk, h]
  · intro s h1 h2 h3 h4
    have hk : ¬ (s = "today" ∨ s = "this week" ∨ s = "this month") := by
      rintro (h | h | h)
      exacts [h1 h, h2 h, h3 h]
    unfold parseDateFilter
    rw [if_neg hk, h4]

/-- C3, witness: the resolution theorem applied at the concrete now of
2026-10-11 (a Sunday) 09:30:00 local. -/
theorem C3_parseDateFilter_resolution_witness :
    ValidDate (DateTime.mk ⟨2026, 10, 11⟩ 9 30 0).date ∧
    parseDateFilter (DateTime.mk ⟨2026, 10, 11⟩ 9 30 0) "today"
      = .ok (midnight ⟨2026, 10, 11⟩, false) :=
  ⟨by decide,
    (C3_parseDateFilter_resolution (DateTime.mk ⟨2026, 10, 11⟩ 9 30 0) (by decide)).1⟩

/-! ## Further calendar and filter lemmas -/

/-- A date produced by `parseYMD` denotes a real calendar day. -/
theorem parseYMD_valid (s : String) (d : Date) (h : parseYMD s = some d) :
    ValidDate d := by
  unfold parseYMD at h
  split at h
  · split at h
    · split at h
      · injection h with h'
        subst h'
        rename_i hcond
        exact hcond
      · exact Option.noConfusion h
    · exact Option.noConfusion h
  · exact Option.noConfusion h

/-- Stepping forward one civil day increases the day number by one. -/
theorem toRataDie_nextDay (d : Date) (hv : ValidDate d) :
    toRataDie (nextDay d) = toRataDie d + 1 := by
  obtain ⟨hm1, hm2, hd1, hd4⟩ := hv
  obtain ⟨y, m, day⟩ := d
  simp only at hm1 hm2 hd1 hd4
  by_cases hd : day < daysInMonth y m
  · unfold nextDay
    simp only [if_pos hd]
    unfold toRataDie
    by_cases hm : m ≤ 2
    · simp only [if_pos hm, if_neg (by omega : ¬ m > 2)]
      omega
    · simp only [if_neg hm, if_pos (by omega : m > 2)]
      omega
  · have hday : day = daysInMonth y m := le_antisymm hd4 (not_lt.mp hd)
    subst hday
    unfold nextDay
    simp only [if_neg (lt_irrefl _)]
    by_cases hm12 : m < 12
    · simp only [if_pos hm12]
      unfold toRataDie daysInMonth isLeap
      interval_cases m <;> norm_num <;> (try split_ifs) <;> omega
    · have hm' : m = 12 := by omega
      subst hm'
      simp only [if_neg hm12]
      unfold toRataDie daysInMonth isLeap
      norm_num
      omega

/-- No instant is before itself. -/
theorem dtBefore_self (t : DateTime) : dtBefore t t = false := by
  simp only [dtBefore, decide_eq_false_iff_not]
  exact lt_irrefl _

/-- Midnight of a valid day is before midnight of the next day. -/
theorem dtBefore_midnight_nextDay (d : Date) (hv : ValidDate d) :
    dtBefore (midnight d) (midnight (nextDay d)) = true := by
  simp only [dtBefore, midnight, dtKey, decide_eq_true_eq]
  have := toRataDie_nextDay d hv
  omega

/-- The single-day loop of `getCompletedTodos` is the list filter by the
half-open-window predicate. -/
theorem singleDayFilter_eq_filter (startDate endOfDay : DateTime) (l : List Todo) :
    singleDayFilter startDate endOfDay l
      = l.filter (keepsInWindow startDate endOfDay) := by
  induction l with
  | nil => rfl
  | cons t rest ih =>
    unfold singleDayFilter
    cases hc : t.completionDate with
    | none => simp [List.filter_cons, keepsInWindow, hc, ih]
    | some c =>
      cases hb : (!dtBefore c startDate && dtBefore c endOfDay) <;>
        simp [List.filter_cons, keepsInWindow, hc, hb, ih]

/-- The area/project loop of `getCompletedTodosFiltered` is the list
filter by the exact-match predicate. -/
theorem areaProjectFilter_eq_filter (a p : String) (l : List Todo) :
    areaProjectFilter a p l = l.filter (matchesAreaProject a p) := by
  induction l with
  | nil => rfl
  | cons t rest ih =>
    unfold areaProjectFilter
    by_cases h1 : a ≠ "" ∧ t.area ≠ a
    · rw [if_pos h1, ih]
      have hm : matchesAreaProject a p t = false := by
        simp [matchesAreaProject, h1.1, h1.2]
      simp [List.filter_cons, hm]
    · rw [if_neg h1]
      by_cases h2 : p ≠ "" ∧ t.project ≠ p
      · rw [if_pos h2, ih]
        have hm : matchesAreaProject a p t = false := by
          simp [matchesAreaProject, h2.1, h2.2]
        simp [List.filter_cons, hm]
      · rw [if_neg h2, ih]
        have ha : a = "" ∨ t.area = a := by tauto
        have hp : p = "" ∨ t.project = p := by tauto
        have hm : matchesAreaProject a p t = true := by
          rcases ha with ha | ha <;> rcases hp with hp | hp <;>
            simp [matchesAreaProject, ha, hp]
        simp [List.filter_cons, hm]

/-- A parseable YYYY-MM-DD token resolves to that day's local midnight
with the single-day flag set. -/
theorem parseDateFilter_of_parseYMD (now : DateTime) (s : String) (d : Date)
    (h : parseYMD s = some d) : parseDateFilter now s = .ok (midnight d, true) := by
  have hk : ¬ (s = "today" ∨ s = "this week" ∨ s = "this month") := by
    rintro (rfl | rfl | rfl) <;> exact Option.noConfusion h
  unfold parseDateFilter
  rw [if_neg hk, h]

/-- The housekeeping call succeeds on non-ERROR output. -/
theorem logCompletedNow_ok (out : String)
    (h : strStartsWith (goTrimSpace out) "ERROR:" = false) :
    logCompletedNow (.output out) = .ok () := by
  unfold logCompletedNow
  simp [h]

/-- The fetch returns the decoded list on non-ERROR output. -/
theorem getTodos_ok (listName filterDateISO out : String) (todos : List Todo)
    (h : strStartsWith (goTrimSpace out) "ERROR:" = false) :
    getTodosFromListWithFilter listName filterDateISO (.output out)
        (fun _ => .ok todos)
      = .ok todos := by
  unfold getTodosFromListWithFilter
  simp [h]

/-- On an explicit single day, `getCompletedTodos` returns exactly the
fetched todos filtered by the half-open day window. -/
theorem getCompletedTodos_singleDay (now : DateTime) (logOut fetchOut s : String)
    (d : Date) (todos : List Todo)
    (hlog : strStartsWith (goTrimSpace logOut) "ERROR:" = false)
    (hfetch : strStartsWith (goTrimSpace fetchOut) "ERROR:" = false)
    (hparse : parseYMD s = some d) :
    getCompletedTodos now (.output logOut) (.output fetchOut) (fun _ => .ok todos) s
      = .ok (todos.filter (keepsInWindow (midnight d) (midnight (nextDay d)))) := by
  unfold getCompletedTodos
  rw [logCompletedNow_ok logOut hlog, parseDateFilter_of_parseYMD now s d hparse]
  dsimp only
  rw [getTodos_ok "Logbook" _ fetchOut todos hfetch]
  simp [singleDayFilter_eq_filter, midnight]

/-- On a keyword window, `getCompletedTodos` returns the fetched todos
unchanged. -/
theorem getCompletedTodos_keyword (now : DateTime) (logOut fetchOut flt : String)
    (todos : List Todo)
    (hlog : strStartsWith (goTrimSpace logOut) "ERROR:" = false)
    (hfetch : strStartsWith (goTrimSpace fetchOut) "ERROR:" = false)
    (hk : flt = "today" ∨ flt = "this week" ∨ flt = "this month") :
    getCompletedTodos now (.output logOut) (.output fetchOut) (fun _ => .ok todos) flt
      = .ok todos := by
  unfold getCompletedTodos parseDateFilter
  rw [logCompletedNow_ok logOut hlog, if_pos hk]
  dsimp only
  rw [getTodos_ok "Logbook" _ fetchOut todos hfetch]
  rfl

/-- C4.  For every fetched Logbook list and every explicit single-day
filter, `getCompletedTodos` keeps exactly the items whose completion
instant (in local civil form) lies in the half-open window from the
day's local midnight to the next day's local midnight: the result is the
filter by that window, an item completed exactly at the day's midnight
is kept, an item completed at or after the next midnight is excluded,
and every retained item's completion lies in the window. -/
theorem C4_single_day_half_open_window (now : DateTime) (logOut fetchOut s : String)
    (d : Date) (todos : List Todo)
    (hlog : strStartsWith (goTrimSpace logOut) "ERROR:" = false)
    (hfetch : strStartsWith (goTrimSpace fetchOut) "ERROR:" = false)
    (hparse : parseYMD s = some d) :
    getCompletedTodos now (.output logOut) (.output fetchOut) (fun _ => .ok todos) s
      = .ok (todos.filter (keepsInWindow (midnight d) (midnight (nextDay d)))) ∧
    (∀ t, t ∈ todos → t.completionDate = some (midnight d) →
      t ∈ todos.filter (keepsInWindow (midnight d) (midnight (nextDay d)))) ∧
    (∀ t c, t.completionDate = some c → dtBefore c (midnight (nextDay d)) = false →
      t ∉ todos.filter (keepsInWindow (midnight d) (midnight (nextDay d)))) ∧
    (∀ t c, t ∈ todos.filter (keepsInWindow (midnight d) (midnight (nextDay d))) →
      t.completionDate = some c →
      dtBefore c (midnight d) = false ∧ dtBefore c (midnight (nextDay d)) = true) := by
  have hval := parseYMD_valid s d hparse
  refine ⟨getCompletedTodos_singleDay now logOut fetchOut s d todos hlog hfetch hparse,
    ?_, ?_, ?_⟩
  · intro t ht hcd
    rw [List.mem_filter]
    refine ⟨ht, ?_⟩
    unfold keepsInWindow
    rw [hcd]
    dsimp only
    rw [dtBefore_self, dtBefore_midnight_nextDay d hval]
    rfl
  · intro t c hcd hend hmem
    rw [List.mem_filter] at hmem
    have hp := hmem.2
    unfold keepsInWindow at hp
    rw [hcd] at hp
    dsimp only at hp
    rw [hend] at hp
    simp at hp
  · intro t c hmem hcd
    rw [List.mem_filter] at hmem
    have hp := hmem.2
    unfold keepsInWindow at hp
    rw [hcd] at hp
    dsimp only at hp
    simp only [Bool.and_eq_true, Bool.not_eq_true'] at hp
    exact hp

/-- C4, witness: filtering for 2024-01-15 keeps the item completed at
that day's local midnight and drops the item completed one second after
the next local midnight. -/
theorem C4_single_day_half_open_window_witness :
    strStartsWith (goTrimSpace "SUCCESS") "ERROR:" = false ∧
    strStartsWith (goTrimSpace "[]") "ERROR:" = false ∧
    parseYMD "2024-01-15" = some ⟨2024, 1, 15⟩ ∧
    getCompletedTodos nowSample (.output "SUCCESS") (.output "[]")
        (fun _ => .ok [todoOnTheDay, todoPastTheDay]) "2024-01-15"
      = .ok [todoOnTheDay] :=
  ⟨by decide, by decide, by decide,
    ((C4_single_day_half_open_window nowSample "SUCCESS" "[]" "2024-01-15"
        ⟨2024, 1, 15⟩ [todoOnTheDay, todoPastTheDay]
        (by decide) (by decide) (by decide)).1).trans (by rfl)⟩

/-- C6.  `getCompletedTodos` runs the `logCompletedNow` housekeeping
call first; if it fails — by a process-level error or by an
"ERROR:"-prefixed output — the failure is returned as a hard error, and
the result does not depend on the fetch response or the JSON decoder,
i.e. the subsequent Logbook fetch is never performed. -/
theorem C6_housekeeping_failure_aborts_fetch (now : DateTime) (dateFilter : String) :
    (∀ e fetchRes unmarshal,
      getCompletedTodos now (.procError e) fetchRes unmarshal dateFilter
        = .error ("error running JXA script: " ++ e)) ∧
    (∀ logOut fetchRes unmarshal, strStartsWith (goTrimSpace logOut) "ERROR:" = true →
      getCompletedTodos now (.output logOut) fetchRes unmarshal dateFilter
        = .error (goTrimSpace logOut)) := by
  constructor
  · intro e fetchRes unmarshal
    rfl
  · intro logOut fetchRes unmarshal h
    unfold getCompletedTodos logCompletedNow
    simp [h]

/-- C6, witness: housekeeping failures at a concrete filter, with a
fetch response and decoder that would themselves fail if consulted. -/
theorem C6_housekeeping_failure_aborts_fetch_witness :
    getCompletedTodos nowSample (.procError "exec failed") (.procError "untouched")
        (fun _ => .error "untouched") "today"
      = .error ("error running JXA script: " ++ "exec failed") ∧
    (strStartsWith (goTrimSpace "ERROR: boom") "ERROR:" = true ∧
      getCompletedTodos nowSample (.output "ERROR: boom") (.procError "untouched")
          (fun _ => .error "untouched") "today"
        = .error (goTrimSpace "ERROR: boom")) :=
  ⟨(C6_housekeeping_failure_aborts_fetch nowSample "today").1 "exec failed" _ _,
    ⟨by decide,
      (C6_housekeeping_failure_aborts_fetch nowSample "today").2 "ERROR: boom"
        (.procError "untouched") (fun _ => .error "untouched") (by decide)⟩⟩

/-- C7.  `getCompletedTodosFiltered` retains exactly the items whose
area name equals the area filter and whose project name equals the
project filter, an empty filter string imposing no constraint, and the
retained items form a sublist (order-preserving selection) of the
fetched list. -/
theorem C7_area_project_filtering (now : DateTime) (logOut fetchOut flt : String)
    (todos : List Todo) (areaFilter projectFilter : String)
    (hlog : strStartsWith (goTrimSpace logOut) "ERROR:" = false)
    (hfetch : strStartsWith (goTrimSpace fetchOut) "ERROR:" = false)
    (hk : flt = "today" ∨ flt = "this week" ∨ flt = "this month") :
    getCompletedTodosFiltered now (.output logOut) (.output fetchOut)
        (fun _ => .ok todos) flt areaFilter projectFilter
      = .ok (todos.filter (matchesAreaProject areaFilter projectFilter)) ∧
    List.Sublist (todos.filter (matchesAreaProject areaFilter projectFilter)) todos := by
  refine ⟨?_, List.filter_sublist todos⟩
  unfold getCompletedTodosFiltered
  rw [getCompletedTodos_keyword now logOut fetchOut flt todos hlog hfetch hk]
  dsimp only
  by_cases hb : areaFilter = "" ∧ projectFilter = ""
  · obtain ⟨ha, hp⟩ := hb
    subst ha
    subst hp
    rw [if_pos ⟨rfl, rfl⟩]
    have hall : matchesAreaProject "" "" = fun _ => true :=
      funext fun t => by simp [matchesAreaProject]
    rw [hall, List.filter_true]
  · rw [if_neg hb, areaProjectFilter_eq_filter]

/-- C7, witness: an area filter of "Work" and no project filter against
two "Work" items and one "Personal" item retains exactly the two "Work"
items in order. -/
theorem C7_area_project_filtering_witness :
    strStartsWith (goTrimSpace "SUCCESS") "ERROR:" = false ∧
    strStartsWith (goTrimSpace "[]") "ERROR:" = false ∧
    ("today" = "today" ∨ "today" = "this week" ∨ "today" = "this month") ∧
    getCompletedTodosFiltered nowSample (.output "SUCCESS") (.output "[]")
        (fun _ => .ok [todoWork1, todoWork2, todoPersonal]) "today" "Work" ""
      = .ok [todoWork1, todoWork2] :=
  ⟨by decide, by decide, Or.inl rfl,
    ((C7_area_project_filtering nowSample "SUCCESS" "[]" "today"
        [todoWork1, todoWork2, todoPersonal] "Work" ""
        (by decide) (by decide) (Or.inl rfl)).1).trans (by rfl)⟩

/-- C10.  On an explicit single-day filter, `getCompletedTodos` never
includes a todo whose completion date is absent, whereas on a keyword
window it returns the fetched list unchanged, such todos included. -/
theorem C10_missing_completion_date_handling (now : DateTime)
    (logOut fetchOut : String) (todos : List Todo)
    (hlog : strStartsWith (goTrimSpace logOut) "ERROR:" = false)
    (hfetch : strStartsWith (goTrimSpace fetchOut) "ERROR:" = false) :
    (∀ s d res, parseYMD s = some d →
      getCompletedTodos now (.output logOut) (.output fetchOut)
          (fun _ => .ok todos) s = .ok res →
      ∀ t ∈ res, t.completionDate ≠ none) ∧
    (∀ flt, (flt = "today" ∨ flt = "this week" ∨ flt = "this month") →
      getCompletedTodos now (.output logOut) (.output fetchOut)
          (fun _ => .ok todos) flt
        = .ok todos) := by
  constructor
  · intro s d res hparse heq t ht
    rw [getCompletedTodos_singleDay now logOut fetchOut s d todos hlog hfetch hparse]
      at heq
    injection heq with h'
    subst h'
    rw [List.mem_filter] at ht
    intro hnone
    have hp := ht.2
    unfold keepsInWindow at hp
    rw [hnone] at hp
    dsimp only at hp
    exact Bool.noConfusion hp
  · intro flt hk
    exact getCompletedTodos_keyword now logOut fetchOut flt todos hlog hfetch hk

/-- C10, witness: a todo without completion date is dropped by the
single-day path and kept by the keyword path. -/
theorem C10_missing_completion_date_handling_witness :
    strStartsWith (goTrimSpace "SUCCESS") "ERROR:" = false ∧
    strStartsWith (goTrimSpace "[]") "ERROR:" = false ∧
    ("today" = "today" ∨ "today" = "this week" ∨ "today" = "this month") ∧
    getCompletedTodos nowSample (.output "SUCCESS") (.output "[]")
        (fun _ => .ok [todoNoDate]) "today"
      = .ok [todoNoDate] :=
  ⟨by decide, by decide, Or.inl rfl,
    (C10_missing_completion_date_handling nowSample "SUCCESS" "[]" [todoNoDate]
        (by decide) (by decide)).2 "today" (Or.inl rfl)⟩

end Things
